import Mathlib

/-!
Verification of the mermaid documentation plugin (src/plugin.ts).

The development shallowly embeds the plugin's pure text transformations and
its two lifecycle callbacks:

* `convertCommentTagText` — rewrites one comment tag's text into markup
  (title line wrapped in a h4 heading, remaining lines in a mermaid div);
* `convertPageContents` — injects the mermaid bootstrap fragment before the
  first closing-body marker of a rendered page, via the semantics of the
  JavaScript `String.replace` with a non-global regex (including the
  dollar-pattern substitution that `replace` performs on its replacement
  string);
* `mermaidTags` / `classOrInterfaceReflections` — the symbol-graph queries;
* `onResolveBegin` / `onPageEnd` — the two event callbacks.  `onResolveBegin`
  mutates reflections owned by the project; the aliasing between
  `project.children` and `project.reflections` is modelled by indirection
  through numeric reflection ids into an association list, and the in-place
  mutation by explicit store updates.  A thrown TypeError is modelled as
  `none`.

Strings are handled at the level of their character lists (`String.data`);
`splitLines`/`joinLines` embed the JavaScript `split('\n')`/`join('\n')`
used by the source.
-/

set_option maxRecDepth 8192

namespace MermaidPluginProofs

/-! ## Data model (typedoc models, as consumed by the plugin) -/

/-- Kinds of reflection distinguished by the plugin (`ReflectionKind`).
The plugin only tests membership in ClassOrInterface and in
Method/Property, and compares against Class, so other kinds collapse
into `Other`. -/
inductive ReflectionKind where
  | Class
  | Interface
  | Method
  | Property
  | Other
deriving DecidableEq

/-- The typedoc `CommentTag`: `tagName` plus the mutable `text`.  The
`paramName` field is never read nor written by the plugin and is omitted. -/
structure CommentTag where
  tagName : String
  text : String
deriving DecidableEq

/-- The typedoc `Comment`: owns an optional ordered tag sequence.  `new
Comment()` leaves `tags` undefined, modelled by `none`; the plugin reads
and writes no other field of `Comment`. -/
structure Comment where
  tags : Option (List CommentTag)
deriving DecidableEq

/-- Modifier flags read by the class-diagram drawer. -/
structure ReflectionFlags where
  isPrivate : Bool
  isProtected : Bool
  isPublic : Bool
deriving DecidableEq

/-- A member (child) of a class or interface reflection.  The plugin reads
only `kind`, `name`, `flags` and the rendered `type` of members, never
their own comments or children, so members are modelled flat; `type` is
`r.type ? r.type.toString() : ''` at the point of use, so the rendered
string (or absence) is stored. -/
structure MemberReflection where
  kind : ReflectionKind
  name : String
  flags : ReflectionFlags
  type : Option String
deriving DecidableEq

/-- A `DeclarationReflection` as touched by the plugin: its kind, name,
optional comment and optional member list. -/
structure DeclarationReflection where
  kind : ReflectionKind
  name : String
  comment : Option Comment
  children : Option (List MemberReflection)
deriving DecidableEq

/-- The project: `reflections` is the id-indexed mapping of all reflections
(`project.reflections`), `children` the optional array of top-level
reflections (`project.children`).  In the host, `children` holds object
references into the same heap objects as `reflections`; that aliasing is
modelled by storing ids into the association list. -/
structure ProjectReflection where
  reflections : List (Nat × DeclarationReflection)
  children : Option (List Nat)
deriving DecidableEq

/-- The traversal context handed to `onResolveBegin`. -/
structure Context where
  project : ProjectReflection
deriving DecidableEq

/-- A `PageEvent` as touched by `onPageEnd`: the optional mutable contents. -/
structure PageEvent where
  contents : Option String
deriving DecidableEq

/-! ## TagTransformer: `convertCommentTagText` -/

/-- Embeds the JavaScript `text.split('\n')` on character lists: splits at
every newline character, keeping empty segments, and yields `[[]]` on the
empty string (as `''.split('\n')` yields `['']`). -/
def splitLines : List Char → List (List Char)
  | [] => [[]]
  | c :: cs =>
    if c = '\n' then [] :: splitLines cs
    else
      match splitLines cs with
      | [] => [[c]]
      | line :: rest => (c :: line) :: rest

/-- Embeds the JavaScript `texts.join('\n')` on lists of character lists. -/
def joinLines : List (List Char) → List Char
  | [] => []
  | [l] => l
  | l :: ls => l ++ '\n' :: joinLines ls

/-- Embeds the JavaScript `strings.join('\n')` on lists of strings. -/
def joinStrings : List String → String
  | [] => ""
  | [s] => s
  | s :: rest => s ++ "\n" ++ joinStrings rest

/-- Embeds `convertCommentTagText` (src/plugin.ts:122-129): split the text
on newlines, shift off the first line as the title, rejoin the rest as the
mermaid body, and interpolate both into the template
`#### (title) \n\n <div class="mermaid">(body)</div>`.  `split` never
returns an empty array, so the `headD` default is unreachable. -/
def convertCommentTagText (tagText : String) : String :=
  let texts := splitLines tagText.data
  let title : List Char := texts.headD []
  let mermaid : List Char := joinLines texts.tail
  String.mk ("#### ".data ++ title ++ " \n\n <div class=\"mermaid\">".data
    ++ mermaid ++ "</div>".data)

/-! ## PageInjector: `convertPageContents` -/

/-- Default of the `mermaidVersion` option (`defaultValue: '7.1.2'`). -/
def defaultMermaidVersion : String := "7.1.2"

/-- Embeds the getter `customScriptsAndBodyClosinngTag` (src/plugin.ts:24-37):
the template literal with the configured version interpolated into the
script URL, followed by the initialization script and the rebuilt
closing-body tag, with the template's exact whitespace. -/
def customScriptsAndBodyClosinngTag (mermaidVersion : String) : String :=
  "\n      <script\n        src=\"https://unpkg.com/mermaid@" ++ mermaidVersion
    ++ "/dist/mermaid.min.js\"\n      ></script>\n      <script>\n      mermaid.initialize(\x7b\n        startOnLoad: true,\n      \x7d);\n      </script>\n      </body>\n    "

/-- The regex literal `BODY_CLOSINNG_TAG = /<\/body>/` (src/plugin.ts:116):
it has no global flag, no capture groups and no metacharacters, so it
matches exactly the literal character sequence of the closing-body tag. -/
def BODY_CLOSINNG_TAG : List Char := "</body>".data

/-- Leftmost-match search of a literal pattern, as performed both by
`RegExp.test` and by `String.replace` with a non-global regex: returns the
text before and after the first occurrence, or `none`. -/
def firstMatch (pat : List Char) : List Char → Option (List Char × List Char)
  | [] => if pat.isPrefixOf ([] : List Char) then some ([], []) else none
  | c :: cs =>
    if pat.isPrefixOf (c :: cs) then some ([], (c :: cs).drop pat.length)
    else (firstMatch pat cs).map (fun pr => (c :: pr.1, pr.2))

/-- The ECMAScript GetSubstitution step applied by `String.replace` to its
replacement string: the two-character sequences dollar-dollar,
dollar-ampersand, dollar-backquote and dollar-quote expand to a literal
dollar, the matched text, the text before the match and the text after the
match; every other character (including dollar-digit, since the regex has
no capture groups) is copied verbatim.  A dollar that starts none of the
four sequences is copied together with its following character; the guards
ensure that character is not itself a dollar, so this agrees with resuming
the scan right after the lone dollar. -/
def getSubstitution (matched before after : List Char) : List Char → List Char
  | [] => []
  | c :: rest =>
    if c = '$' then
      match rest with
      | [] => [c]
      | d :: rest2 =>
        if d = '$' then '$' :: getSubstitution matched before after rest2
        else if d = '&' then matched ++ getSubstitution matched before after rest2
        else if d = Char.ofNat 96 then before ++ getSubstitution matched before after rest2
        else if d = Char.ofNat 39 then after ++ getSubstitution matched before after rest2
        else c :: d :: getSubstitution matched before after rest2
    else c :: getSubstitution matched before after rest

/-- Embeds `this.BODY_CLOSINNG_TAG.test(contents)`. -/
def regexTest (contents : String) : Bool :=
  (firstMatch BODY_CLOSINNG_TAG contents.data).isSome

/-- Embeds `contents.replace(this.BODY_CLOSINNG_TAG, replacement)`: replace
the first occurrence of the marker with the dollar-substituted replacement
string (ECMAScript String.prototype.replace with a string replacement). -/
def replaceFirstMatch (contents : String) (replacement : String) : String :=
  match firstMatch BODY_CLOSINNG_TAG contents.data with
  | some pr =>
    String.mk (pr.1 ++ getSubstitution BODY_CLOSINNG_TAG pr.1 pr.2 replacement.data ++ pr.2)
  | none => contents

/-- Embeds `convertPageContents` (src/plugin.ts:134-141). -/
def convertPageContents (mermaidVersion : String) (contents : String) : String :=
  if regexTest contents then
    replaceFirstMatch contents (customScriptsAndBodyClosinngTag mermaidVersion)
  else contents

/-- Embeds `onPageEnd` (src/plugin.ts:194-199): convert the contents when
they are present, leave the page alone otherwise. -/
def onPageEnd (mermaidVersion : String) (page : PageEvent) : PageEvent :=
  match page.contents with
  | some contents => { contents := some (convertPageContents mermaidVersion contents) }
  | none => page

/-! ## TagCollector: `mermaidTags` and the supporting predicates -/

/-- Embeds `filterComment` (src/plugin.ts:42-44). -/
def filterComment (comment : Option Comment) : Bool :=
  comment.isSome

/-- Embeds `filterCommentTags` (src/plugin.ts:49-51). -/
def filterCommentTags (tags : Option (List CommentTag)) : Bool :=
  tags.isSome

/-- Embeds `isMermaidCommentTag` (src/plugin.ts:56-58). -/
def isMermaidCommentTag (tag : CommentTag) : Bool :=
  tag.tagName == "mermaid"

/-- Embeds `mermaidTags` (src/plugin.ts:63-85) over a reflections store:
values of the store, mapped to their comments, filtered to the existing
ones, mapped to their tag sequences, filtered to the existing ones, merged
by the reduce-concat, and filtered to the mermaid-named tags.  The two
type-narrowing filters of the source are each followed by `filterMap id`,
the embedding of using the surviving optional values as present values
(a no-op on the filtered lists). -/
def mermaidTagsOfStore (store : List (Nat × DeclarationReflection)) : List CommentTag :=
  ((((((store.map Prod.snd).map DeclarationReflection.comment).filter
      filterComment).filterMap id).map Comment.tags).filter filterCommentTags).filterMap id
    |>.foldl (fun a b => a ++ b) []
    |>.filter isMermaidCommentTag

/-- The collector as called, over `context.project.reflections`. -/
def mermaidTags (context : Context) : List CommentTag :=
  mermaidTagsOfStore context.project.reflections

/-- Embeds `reflection.kindOf(ReflectionKind.ClassOrInterface)`. -/
def kindOfClassOrInterface (r : DeclarationReflection) : Bool :=
  r.kind == ReflectionKind.Class || r.kind == ReflectionKind.Interface

/-- Embeds `r.kindOf([ReflectionKind.Method, ReflectionKind.Property])`. -/
def kindOfMethodOrProperty (m : MemberReflection) : Bool :=
  m.kind == ReflectionKind.Method || m.kind == ReflectionKind.Property

/-- Dereference of a reflection id in the store (the object access that is
implicit in the host's object references). -/
def lookupReflection (store : List (Nat × DeclarationReflection)) (id : Nat) :
    Option DeclarationReflection :=
  (store.find? (fun e => e.1 == id)).map Prod.snd

/-- Embeds `classOrInterfaceReflections` (src/plugin.ts:90-99): the ids of
the project children whose reflection is a class or an interface; an empty
list when `children` is absent. -/
def classOrInterfaceReflections (context : Context) : List Nat :=
  match context.project.children with
  | some ids => ids.filter (fun id =>
      match lookupReflection context.project.reflections id with
      | some r => kindOfClassOrInterface r
      | none => false)
  | none => []

/-! ## EventBinder: `onResolveBegin` and the class-diagram drawer -/

/-- Embeds `convertDeclarationReflectionToMermaidClassTiagram`
(src/plugin.ts:201-227), the source's misspelling included: the method and
property members rendered as class-diagram lines (with the access marker
from the flags) and joined with newlines; the empty string without
members. -/
def convertDeclarationReflectionToMermaidClassTiagram
    (reflection : DeclarationReflection) : String :=
  match reflection.children with
  | some children =>
    joinStrings
      ((children.filter kindOfMethodOrProperty).map (fun r =>
        let access : String :=
          if r.flags.isPrivate then "- "
          else if r.flags.isProtected then "# "
          else if r.flags.isPublic then "+ "
          else ""
        match r.kind with
        | ReflectionKind.Method =>
          access ++ " " ++ reflection.name ++ " : " ++ r.name ++ "() "
        | ReflectionKind.Property =>
          let type := match r.type with | some t => t | none => ""
          access ++ " " ++ reflection.name ++ " : " ++ type ++ " " ++ r.name ++ " "
        | _ => ""))
  | none => ""

/-- Embeds `drowMermaidClassDiagram` (src/plugin.ts:229-235), the source's
misspellings of the name and of Clsss included. -/
def drowMermaidClassDiagram (reflection : DeclarationReflection) : String :=
  let type := if reflection.kind == ReflectionKind.Class then "Clsss" else "Interface"
  let content := convertDeclarationReflectionToMermaidClassTiagram reflection
  "classDiagram\n      " ++ reflection.name ++ " .. " ++ type ++ "\n      " ++ content

/-- Embeds `createMermaidTagText` (src/plugin.ts:237-239). -/
def createMermaidTagText (title : String) (mermaidGraphDiagram : String) : String :=
  title ++ "\n" ++ mermaidGraphDiagram

/-- Embeds the body of the first `forEach` of `onResolveBegin`
(src/plugin.ts:166-180) on one reflection.  The guard
`if (reflection.comment) { reflection.comment = new Comment(); }` replaces
an existing comment by a fresh one whose `tags` is undefined; afterwards
`reflection.comment!.tags` is read: when the original comment was absent
the comment is still undefined there and the dereference throws a
TypeError, modelled as `none`.  Otherwise the fresh comment has no `tags`,
so the else branch installs the singleton list holding the new tag. -/
def attachMermaidTag (reflection : DeclarationReflection) (tag : CommentTag) :
    Option DeclarationReflection :=
  let comment := if reflection.comment.isSome then some { tags := none } else reflection.comment
  match comment with
  | none => none
  | some c =>
    match c.tags with
    | some ts => some { reflection with comment := some { c with tags := some (ts ++ [tag]) } }
    | none => some { reflection with comment := some { c with tags := some [tag] } }

/-- Writing a mutated reflection back through its id: every store entry
bearing the id is updated (the store of a real project has unique ids). -/
def updateReflection (store : List (Nat × DeclarationReflection)) (id : Nat)
    (r : DeclarationReflection) : List (Nat × DeclarationReflection) :=
  store.map (fun e => if e.1 == id then (e.1, r) else e)

/-- One iteration of the first `forEach` of `onResolveBegin`
(src/plugin.ts:161-180): draw the class diagram of the reflection, build
the tag text, construct `new CommentTag('mermaid', void 0, tagText)` and
attach it, writing the mutated reflection back into the store.  A dangling
id (impossible in the host, where children are object references) leaves
the store unchanged. -/
def attachStep (store : List (Nat × DeclarationReflection)) (id : Nat) :
    Option (List (Nat × DeclarationReflection)) :=
  match lookupReflection store id with
  | none => some store
  | some reflection =>
    let mermaidClassDiagram := drowMermaidClassDiagram reflection
    let tagText := createMermaidTagText "Class Diagram" mermaidClassDiagram
    let tag : CommentTag := { tagName := "mermaid", text := tagText }
    (attachMermaidTag reflection tag).map (updateReflection store id)

/-- Embeds the second `forEach` of `onResolveBegin` (src/plugin.ts:182-187):
every tag collected by `mermaidTags` gets `tag.text =
this.convertCommentTagText(tag.text)` in place.  The collection pass
gathers each stored tag at most once and the assignment touches only
`text`, so the in-place mutation is the pointwise rewrite of every
mermaid-named tag in the store. -/
def convertMermaidTagTexts (store : List (Nat × DeclarationReflection)) :
    List (Nat × DeclarationReflection) :=
  store.map (fun e => (e.1,
    { e.2 with comment := e.2.comment.map (fun c =>
        { c with tags := c.tags.map (fun ts => ts.map (fun t =>
            if isMermaidCommentTag t then { t with text := convertCommentTagText t.text }
            else t)) }) }))

/-- Embeds `onResolveBegin` (src/plugin.ts:159-188): walk the class and
interface children attaching the generated class-diagram tag (the walk
aborts with `none` when the TypeError of `attachMermaidTag` fires), then
rewrite the text of every mermaid tag of the project. -/
def onResolveBegin (context : Context) : Option Context :=
  match (classOrInterfaceReflections context).foldlM attachStep
      context.project.reflections with
  | none => none
  | some store =>
    some { project := { context.project with reflections := convertMermaidTagTexts store } }

/-! ## Derived measures and spec-side definitions used in the claims -/

/-- No occurrence of `pat` spans the boundary between `x` and `y`: no
nontrivial cut of `pat` ends `x` and starts `y`. -/
def NoSpan (pat x y : List Char) : Prop :=
  ∀ k, 0 < k → k < pat.length → pat.take k <:+ x → ¬ pat.drop k <+: y

/-- Number of positions of `s` at which `pat` occurs. -/
def countOccs (pat : List Char) : List Char → Nat
  | [] => 0
  | c :: cs => (if pat <+: c :: cs then 1 else 0) + countOccs pat cs

/-- Position of the first occurrence of `pat`, if any. -/
def firstIndexOfSubstr (pat : List Char) : List Char → Option Nat
  | [] => if pat <+: ([] : List Char) then some 0 else none
  | c :: cs => if pat <+: c :: cs then some 0 else (firstIndexOfSubstr pat cs).map Nat.succ

/-- The loader URL of the injected script element, as the specification
states it: unpkg.com/mermaid at the configured version. -/
def mermaidScriptUrl (v : String) : String :=
  "https://unpkg.com/mermaid@" ++ v ++ "/dist/mermaid.min.js"

/-- The part of the default-version fragment before its closing-body
marker. -/
def fragBeforeMarker : String :=
  "\n      <script\n        src=\"https://unpkg.com/mermaid@7.1.2/dist/mermaid.min.js\"\n      ></script>\n      <script>\n      mermaid.initialize(\x7b\n        startOnLoad: true,\n      \x7d);\n      </script>\n      "

/-- The part of the fragment after its closing-body marker. -/
def fragAfterMarker : String :=
  "\n    "

/-- The fragment text before the interpolated loader URL. -/
def fragUrlPre : String :=
  "\n      <script\n        src=\""

/-- The fragment text between the interpolated loader URL and the rebuilt
closing-body marker: the script-element close and the initialization
script enabling auto-start rendering. -/
def fragUrlPost : String :=
  "\"\n      ></script>\n      <script>\n      mermaid.initialize(\x7b\n        startOnLoad: true,\n      \x7d);\n      </script>\n      "

/-- The tag generated by the first loop of `onResolveBegin` for a
reflection: `new CommentTag('mermaid', void 0, tagText)` with the tag text
built by `createMermaidTagText` over the drawn class diagram. -/
def generatedMermaidTag (r : DeclarationReflection) : CommentTag :=
  ⟨"mermaid", createMermaidTagText "Class Diagram" (drowMermaidClassDiagram r)⟩

/-- State of the store entry at `id` once the attach loop has processed it
(claims C8 and C10): the stored reflection keeps the shape of the original
reflection `r0` (kind, name, members) and its comment holds exactly the
singleton generated tag. -/
def AttachedAt (store : List (Nat × DeclarationReflection)) (id : Nat)
    (r0 : DeclarationReflection) : Prop :=
  ∃ r, lookupReflection store id = some r
    ∧ r.kind = r0.kind ∧ r.name = r0.name ∧ r.children = r0.children
    ∧ r.comment = some ⟨some [generatedMermaidTag r0]⟩

/-- Specification-side description of the collector (claim C6): from each
reflection in store order, the tags of its comment (none when the comment
or its tag sequence is absent), in order, filtered to those named
mermaid. -/
def mermaidTagsSpec (store : List (Nat × DeclarationReflection)) : List CommentTag :=
  (store.map (fun e =>
    (match e.2.comment with
     | some c => match c.tags with | some ts => ts | none => []
     | none => []).filter (fun t => t.tagName == "mermaid"))).flatten

/-! ## List toolkit -/

theorem nilPrefix {α : Type} (l : List α) : [] <+: l :=
  List.nil_prefix

theorem takePrefix {α : Type} (n : Nat) (l : List α) : l.take n <+: l :=
  List.take_prefix n l

theorem prefixTakeOfLe {α : Type} {p l : List α} {n : Nat} (h : p <+: l)
    (hn : p.length ≤ n) : p <+: l.take n := by
  obtain ⟨t, rfl⟩ := h
  rw [List.take_append_eq_append_take, List.take_of_length_le hn]
  exact List.prefix_append p _

theorem prefix_head_some {α : Type} {l₁ l₂ : List α} {c : α} (h : l₁ <+: l₂)
    (hc : l₁.head? = some c) : l₂.head? = some c := by
  obtain ⟨t, rfl⟩ := h
  cases l₁ with
  | nil => simp at hc
  | cons a l => simpa using hc

theorem head_some_append {α : Type} {l : List α} {c : α} (h : l.head? = some c)
    (t : List α) : (l ++ t).head? = some c := by
  cases l with
  | nil => simp at h
  | cons a l => simpa using h

theorem prefix_append_split {α : Type} {p x y : List α} (h : p <+: x ++ y) :
    p <+: x ∨ (x <+: p ∧ p.drop x.length <+: y) := by
  induction x generalizing p with
  | nil =>
    right
    exact ⟨ nilPrefix p, by simpa using h⟩
  | cons a x' ih =>
    cases p with
    | nil =>
      left
      exact nilPrefix _
    | cons b p' =>
      rw [List.cons_append, List.cons_prefix_cons] at h
      obtain ⟨rfl, h'⟩ := h
      rcases ih h' with h1 | ⟨h2, h3⟩
      · left
        exact List.cons_prefix_cons.mpr ⟨rfl, h1⟩
      · right
        refine ⟨List.cons_prefix_cons.mpr ⟨rfl, h2⟩, ?_⟩
        simpa using h3

/-! ## TagTransformer lemmas and claim C1 -/

theorem splitLines_ne_nil (l : List Char) : splitLines l ≠ [] := by
  induction l with
  | nil => simp [splitLines]
  | cons c cs ih =>
    simp only [splitLines]
    split
    · simp
    · split
      · simp
      · simp

theorem splitLines_of_not_mem (l : List Char) (h : '\n' ∉ l) :
    splitLines l = [l] := by
  induction l with
  | nil => rfl
  | cons c cs ih =>
    have hc : ¬ c = '\n' := by
      intro hc; exact h (hc ▸ List.mem_cons_self c cs)
    have hcs : '\n' ∉ cs := fun hm => h (List.mem_cons_of_mem _ hm)
    simp only [splitLines, if_neg hc, ih hcs]

theorem splitLines_append (a b : List Char) (h : '\n' ∉ a) :
    splitLines (a ++ '\n' :: b) = a :: splitLines b := by
  induction a with
  | nil => simp [splitLines]
  | cons c cs ih =>
    have hc : ¬ c = '\n' := by
      intro hc; exact h (hc ▸ List.mem_cons_self c cs)
    have hcs : '\n' ∉ cs := fun hm => h (List.mem_cons_of_mem _ hm)
    simp only [List.cons_append, splitLines, if_neg hc, List.append_eq]
    rw [ih hcs]

theorem joinLines_cons_cons (c : Char) (line : List Char)
    (rest : List (List Char)) :
    joinLines ((c :: line) :: rest) = c :: joinLines (line :: rest) := by
  cases rest with
  | nil => rfl
  | cons r rs => rfl

theorem joinLines_splitLines (l : List Char) :
    joinLines (splitLines l) = l := by
  induction l with
  | nil => rfl
  | cons c cs ih =>
    by_cases hc : c = '\n'
    · subst hc
      simp only [splitLines, if_pos rfl]
      obtain ⟨s, ss, hss⟩ : ∃ s ss, splitLines cs = s :: ss := by
        cases hsp : splitLines cs with
        | nil => exact absurd hsp (splitLines_ne_nil cs)
        | cons s ss => exact ⟨s, ss, rfl⟩
      rw [hss]
      show joinLines ([] :: s :: ss) = '\n' :: cs
      show [] ++ '\n' :: joinLines (s :: ss) = '\n' :: cs
      rw [List.nil_append, ← hss, ih]
    · simp only [splitLines, if_neg hc]
      cases hsp : splitLines cs with
      | nil => exact absurd hsp (splitLines_ne_nil cs)
      | cons line rest =>
        rw [joinLines_cons_cons, ← hsp, ih]

theorem convertCommentTagText_eq_of_no_newline (s : String) (h : '\n' ∉ s.data) :
    convertCommentTagText s = "#### " ++ s ++ " \n\n <div class=\"mermaid\"></div>" := by
  apply String.ext
  simp only [convertCommentTagText, splitLines_of_not_mem s.data h,
    String.data_append]
  simp [joinLines]

theorem convertCommentTagText_eq_of_split (a b : String) (ha : '\n' ∉ a.data) :
    convertCommentTagText (a ++ "\n" ++ b)
      = "#### " ++ a ++ " \n\n <div class=\"mermaid\">" ++ b ++ "</div>" := by
  apply String.ext
  have hdata : (a ++ "\n" ++ b).data = a.data ++ '\n' :: b.data := by
    simp [String.data_append]
  simp only [convertCommentTagText, hdata, splitLines_append a.data b.data ha,
    String.data_append]
  simp [joinLines_splitLines]

/-- Claim C1: for every input string, `convertCommentTagText` returns
exactly the heading-plus-container template, where the title is the part of
the input before its first newline (the whole input when there is none) and
the body is the remainder after that first newline with interior newlines
preserved (empty when there is no newline); in particular on the two
concrete inputs of the specification. -/
theorem convertCommentTagText_splits_at_first_newline (s : String) :
    ('\n' ∉ s.data →
      convertCommentTagText s
        = "#### " ++ s ++ " \n\n <div class=\"mermaid\"></div>")
    ∧ (∀ a b : String, s = a ++ "\n" ++ b → '\n' ∉ a.data →
      convertCommentTagText s
        = "#### " ++ a ++ " \n\n <div class=\"mermaid\">" ++ b ++ "</div>")
    ∧ convertCommentTagText "Flow\nA-->B"
        = "#### Flow \n\n <div class=\"mermaid\">A-->B</div>"
    ∧ convertCommentTagText "OnlyTitle"
        = "#### OnlyTitle \n\n <div class=\"mermaid\"></div>" := by
  refine ⟨convertCommentTagText_eq_of_no_newline s, ?_, by decide, by decide⟩
  intro a b hs ha
  rw [hs]
  exact convertCommentTagText_eq_of_split a b ha

/-- Witness for C1 at the concrete input of the specification. -/
theorem convertCommentTagText_splits_at_first_newline_witness :
    convertCommentTagText "Flow\nA-->B"
      = "#### Flow \n\n <div class=\"mermaid\">A-->B</div>" :=
  (convertCommentTagText_splits_at_first_newline "Flow\nA-->B").2.1
    "Flow" "A-->B" (by decide) (by decide)

/-! ## PageInjector lemmas -/

theorem infix_of_firstMatch_isSome (pat s : List Char)
    (h : (firstMatch pat s).isSome) : pat <:+: s := by
  induction s with
  | nil =>
    simp only [firstMatch] at h
    split at h
    · rename_i hp
      exact (List.isPrefixOf_iff_prefix.mp hp).isInfix
    · simp at h
  | cons c cs ih =>
    simp only [firstMatch] at h
    split at h
    · rename_i hp
      exact (List.isPrefixOf_iff_prefix.mp hp).isInfix
    · rw [List.infix_cons_iff]
      right
      apply ih
      cases hfm : firstMatch pat cs with
      | none => rw [hfm] at h; simp at h
      | some pr => simp [hfm]

theorem firstMatch_eq_none (pat s : List Char) (h : ¬ pat <:+: s) :
    firstMatch pat s = none := by
  cases hfm : firstMatch pat s with
  | none => rfl
  | some pr => exact absurd (infix_of_firstMatch_isSome pat s (by simp [hfm])) h

/-! ## Claim C3 -/

/-- Claim C3: on every html string that does not contain the literal
closing-body marker, `convertPageContents` is the identity, for any
configured version. -/
theorem convertPageContents_id_without_marker (v html : String)
    (h : ¬ BODY_CLOSINNG_TAG <:+: html.data) :
    convertPageContents v html = html := by
  unfold convertPageContents regexTest
  rw [firstMatch_eq_none _ _ h]
  rfl

/-- Witness for C3 on a concrete marker-free page. -/
theorem convertPageContents_id_without_marker_witness :
    convertPageContents "7.1.2" "<html><p>x</p></html>" = "<html><p>x</p></html>" :=
  convertPageContents_id_without_marker "7.1.2" "<html><p>x</p></html>" (by decide)

/-! ## First-occurrence machinery for the page injection -/

theorem prefix_dropLast_of_proper {pat x y : List Char} (hx : x ≠ [])
    (h : pat <+: x ++ (pat ++ y)) : pat <+: (x ++ pat).dropLast := by
  have hxlen : 1 ≤ x.length := by
    cases x with
    | nil => exact absurd rfl hx
    | cons a l => simp
  have hle : pat.length ≤ (x ++ pat).length - 1 := by
    rw [List.length_append]; omega
  have h' : pat <+: (x ++ pat) ++ y := by rw [List.append_assoc]; exact h
  have h2 := prefixTakeOfLe h' hle
  rw [List.take_append_eq_append_take] at h2
  have hz : (x ++ pat).length - 1 - (x ++ pat).length = 0 := by omega
  rw [hz, List.take_zero, List.append_nil] at h2
  rwa [List.dropLast_eq_take]

theorem firstMatch_first_occ (pat : List Char) (hpat : pat ≠ []) :
    ∀ (pre post : List Char),
      ¬ pat <:+: (pre ++ pat).dropLast →
      firstMatch pat (pre ++ pat ++ post) = some (pre, post) := by
  intro pre
  induction pre with
  | nil =>
    intro post h2
    cases pat with
    | nil => exact absurd rfl hpat
    | cons a as =>
      have hpre : (a :: as).isPrefixOf ((a :: as) ++ post) = true :=
        List.isPrefixOf_iff_prefix.mpr (List.prefix_append _ _)
      have hdrop := List.drop_left (a :: as) post
      rw [List.cons_append] at hpre hdrop
      show firstMatch (a :: as) (a :: (as ++ post)) = some ([], post)
      simp [firstMatch, hpre, hdrop]
  | cons c pre' ih =>
    intro post h2
    have hne : pre' ++ pat ≠ [] := by
      intro hcontra
      exact hpat (List.append_eq_nil.mp hcontra).2
    have hdl : ((c :: pre') ++ pat).dropLast = c :: (pre' ++ pat).dropLast := by
      rw [List.cons_append]
      rw [show c :: (pre' ++ pat) = [c] ++ (pre' ++ pat) from rfl]
      rw [List.dropLast_append_of_ne_nil _ hne]
      rfl
    have h2' : ¬ pat <:+: (pre' ++ pat).dropLast := by
      intro hinf
      exact h2 (by rw [hdl]; exact List.infix_cons hinf)
    have hneg : ¬ (pat.isPrefixOf (c :: ((pre' ++ pat) ++ post))) = true := by
      rw [List.isPrefixOf_iff_prefix]
      intro hp
      have hp' : pat <+: (c :: pre') ++ (pat ++ post) := by
        simpa [List.append_assoc] using hp
      have hdlp := prefix_dropLast_of_proper (by simp) hp'
      exact h2 hdlp.isInfix
    show firstMatch pat (c :: ((pre' ++ pat) ++ post)) = some (c :: pre', post)
    simp only [firstMatch]
    rw [if_neg hneg, ih post h2']
    rfl

theorem getSubstitution_cons_of_ne (matched before after : List Char) (c : Char)
    (rest : List Char) (hc : ¬ c = '$') :
    getSubstitution matched before after (c :: rest)
      = c :: getSubstitution matched before after rest := by
  cases rest with
  | nil => simp [getSubstitution, hc]
  | cons d rest2 => simp [getSubstitution, hc]

theorem getSubstitution_of_no_dollar (matched before after : List Char) :
    ∀ (repl : List Char), '$' ∉ repl →
      getSubstitution matched before after repl = repl := by
  intro repl
  induction repl with
  | nil => intro _; rfl
  | cons c rest ih =>
    intro h
    have hc : ¬ c = '$' := by
      intro hceq
      rw [hceq] at h
      exact h (List.mem_cons_self _ _)
    have hrest : '$' ∉ rest := fun hm => h (List.mem_cons_of_mem _ hm)
    rw [getSubstitution_cons_of_ne _ _ _ _ _ hc, ih hrest]

theorem convertPageContents_insert (v html : String) (pre post : List Char)
    (h1 : html.data = pre ++ BODY_CLOSINNG_TAG ++ post)
    (h2 : ¬ BODY_CLOSINNG_TAG <:+: (pre ++ BODY_CLOSINNG_TAG).dropLast) :
    (convertPageContents v html).data
      = pre ++ getSubstitution BODY_CLOSINNG_TAG pre post
          (customScriptsAndBodyClosinngTag v).data ++ post := by
  have hfm : firstMatch BODY_CLOSINNG_TAG html.data = some (pre, post) := by
    rw [h1]
    exact firstMatch_first_occ BODY_CLOSINNG_TAG (by decide) pre post h2
  unfold convertPageContents regexTest replaceFirstMatch
  rw [hfm]
  simp

theorem convertPageContents_insert_default (html : String) (pre post : List Char)
    (h1 : html.data = pre ++ BODY_CLOSINNG_TAG ++ post)
    (h2 : ¬ BODY_CLOSINNG_TAG <:+: (pre ++ BODY_CLOSINNG_TAG).dropLast) :
    (convertPageContents defaultMermaidVersion html).data
      = pre ++ (customScriptsAndBodyClosinngTag defaultMermaidVersion).data ++ post := by
  rw [convertPageContents_insert _ _ _ _ h1 h2,
    getSubstitution_of_no_dollar _ _ _ _ (by decide)]

/-! ## Occurrence counting -/

theorem countOccs_le_append_left (pat x y : List Char) :
    countOccs pat y ≤ countOccs pat (x ++ y) := by
  induction x with
  | nil => exact Nat.le_refl _
  | cons c x' ih =>
    have h1 : countOccs pat (x' ++ y) ≤ countOccs pat ((c :: x') ++ y) := by
      rw [List.cons_append]
      show countOccs pat (x' ++ y)
        ≤ (if pat <+: c :: (x' ++ y) then 1 else 0) + countOccs pat (x' ++ y)
      exact Nat.le_add_left _ _
    exact Nat.le_trans ih h1

theorem countOccs_le_append_right (pat : List Char) (x y : List Char) :
    countOccs pat x ≤ countOccs pat (x ++ y) := by
  induction x with
  | nil => exact Nat.zero_le _
  | cons c x' ih =>
    rw [List.cons_append]
    simp only [countOccs]
    apply Nat.add_le_add ?_ ih
    by_cases hp : pat <+: c :: x'
    · rw [if_pos hp, if_pos (show pat <+: c :: (x' ++ y) from hp.trans (List.prefix_append (c :: x') y))]
    · rw [if_neg hp]
      exact Nat.zero_le _

theorem prefix_cons_iff_of_noSpan (pat : List Char) (c : Char) (x' y : List Char)
    (hns : NoSpan pat (c :: x') y) :
    (pat <+: c :: (x' ++ y)) ↔ (pat <+: c :: x') := by
  constructor
  · intro hp
    by_cases hq : pat <+: c :: x'
    · exact hq
    · exfalso
      have hp' : pat <+: (c :: x') ++ y := by simpa using hp
      rcases prefix_append_split hp' with h1 | ⟨h2, h3⟩
      · exact hq h1
      · by_cases hlen : pat.length ≤ (c :: x').length
        · have heq : c :: x' = pat := h2.eq_of_length (Nat.le_antisymm h2.length_le hlen)
          apply hq
          rw [← heq]
        · have hk1 : 0 < (c :: x').length := by simp
          have hk2 : (c :: x').length < pat.length := Nat.lt_of_not_le hlen
          have htake : pat.take (c :: x').length = c :: x' := by
            obtain ⟨t, ht⟩ := h2
            rw [← ht, List.take_append_eq_append_take, List.take_length, Nat.sub_self,
              List.take_zero, List.append_nil]
          have hsuf : pat.take (c :: x').length <:+ c :: x' := by
            rw [htake]
          exact hns _ hk1 hk2 hsuf h3
  · intro hq
    exact hq.trans (List.prefix_append (c :: x') y)

theorem countOccs_append (pat : List Char) :
    ∀ (x y : List Char), NoSpan pat x y →
      countOccs pat (x ++ y) = countOccs pat x + countOccs pat y := by
  intro x
  induction x with
  | nil =>
    intro y _
    simp [countOccs]
  | cons c x' ih =>
    intro y hns
    have hns' : NoSpan pat x' y := by
      intro k hk1 hk2 hsuf
      exact hns k hk1 hk2 (hsuf.trans (List.suffix_cons c x'))
    have hiff := prefix_cons_iff_of_noSpan pat c x' y hns
    rw [List.cons_append]
    simp only [countOccs]
    rw [ih y hns']
    have hind : (if pat <+: c :: (x' ++ y) then 1 else 0)
        = (if pat <+: c :: x' then 1 else 0) := by
      by_cases hp : pat <+: c :: x'
      · rw [if_pos hp, if_pos (hiff.mpr hp)]
      · rw [if_neg hp, if_neg (fun hcon => hp (hiff.mp hcon))]
    omega

/-! ## Concrete facts about the marker and the default fragment -/

theorem bodyTag_ne_nil : BODY_CLOSINNG_TAG ≠ [] := by decide

theorem bodyTag_no_border :
    ∀ k, k < BODY_CLOSINNG_TAG.length → 0 < k →
      ¬ BODY_CLOSINNG_TAG.take k <:+ BODY_CLOSINNG_TAG := by decide

theorem bodyTag_drop_head :
    ∀ k, k < BODY_CLOSINNG_TAG.length → 0 < k →
      (BODY_CLOSINNG_TAG.drop k).head? ≠ some '\n'
        ∧ BODY_CLOSINNG_TAG.drop k ≠ [] := by decide

theorem fragDefault_no_border :
    ∀ k, k < BODY_CLOSINNG_TAG.length → 0 < k →
      ¬ BODY_CLOSINNG_TAG.take k
          <:+ (customScriptsAndBodyClosinngTag defaultMermaidVersion).data := by decide

theorem frag_default_head :
    (customScriptsAndBodyClosinngTag defaultMermaidVersion).data.head? = some '\n' := by
  decide

theorem countOccs_marker_self :
    countOccs BODY_CLOSINNG_TAG BODY_CLOSINNG_TAG = 1 := by decide

theorem countOccs_marker_frag :
    countOccs BODY_CLOSINNG_TAG
      (customScriptsAndBodyClosinngTag defaultMermaidVersion).data = 1 := by decide

theorem not_marker_tail_prefix_newline (k : Nat) (hk1 : 0 < k)
    (hk2 : k < BODY_CLOSINNG_TAG.length) (y : List Char)
    (hy : y.head? = some '\n') : ¬ BODY_CLOSINNG_TAG.drop k <+: y := by
  intro hpre
  obtain ⟨hne, hnenil⟩ := bodyTag_drop_head k hk2 hk1
  cases hh : (BODY_CLOSINNG_TAG.drop k).head? with
  | none => exact hnenil (List.head?_eq_none_iff.mp hh)
  | some c =>
    have hyc : y.head? = some c := prefix_head_some hpre hh
    have hcc : (some c : Option Char) = some '\n' := by rw [← hyc, hy]
    rw [Option.some.injEq] at hcc
    rw [hcc] at hh
    exact hne hh

theorem noSpan_newline_head (x y : List Char) (hy : y.head? = some '\n') :
    NoSpan BODY_CLOSINNG_TAG x y := by
  intro k hk1 hk2 _
  exact not_marker_tail_prefix_newline k hk1 hk2 y hy

theorem noSpan_pre_marker (pre post : List Char)
    (h2 : ¬ BODY_CLOSINNG_TAG <:+: (pre ++ BODY_CLOSINNG_TAG).dropLast) :
    NoSpan BODY_CLOSINNG_TAG pre (BODY_CLOSINNG_TAG ++ post) := by
  intro k hk1 hk2 hsuf hpre
  apply h2
  have hd : BODY_CLOSINNG_TAG.drop k <+: BODY_CLOSINNG_TAG := by
    rcases prefix_append_split hpre with h | ⟨hxp, _⟩
    · exact h
    · exfalso
      have hlen := hxp.length_le
      rw [List.length_drop] at hlen
      omega
  have hlendrop : (BODY_CLOSINNG_TAG.drop k).length ≤ BODY_CLOSINNG_TAG.length - 1 := by
    rw [List.length_drop]; omega
  have hdp : BODY_CLOSINNG_TAG.drop k <+: BODY_CLOSINNG_TAG.dropLast := by
    rw [List.dropLast_eq_take]
    exact prefixTakeOfLe hd hlendrop
  obtain ⟨p0, hp0⟩ := hsuf
  obtain ⟨t, ht⟩ := hdp
  rw [List.dropLast_append_of_ne_nil _ bodyTag_ne_nil]
  refine ⟨p0, t, ?_⟩
  rw [← hp0, ← ht]
  simp only [List.append_assoc]
  rw [← List.append_assoc (List.take k BODY_CLOSINNG_TAG), List.take_append_drop]

theorem noSpan_marker_self (post : List Char) :
    NoSpan BODY_CLOSINNG_TAG BODY_CLOSINNG_TAG post := by
  intro k hk1 hk2 hsuf
  exact absurd hsuf (bodyTag_no_border k hk2 hk1)

theorem noSpan_frag_default (post : List Char) :
    NoSpan BODY_CLOSINNG_TAG
      (customScriptsAndBodyClosinngTag defaultMermaidVersion).data post := by
  intro k hk1 hk2 hsuf
  exact absurd hsuf (fragDefault_no_border k hk2 hk1)

theorem countOccs_insert_default (html : String) (pre post : List Char)
    (h1 : html.data = pre ++ BODY_CLOSINNG_TAG ++ post)
    (h2 : ¬ BODY_CLOSINNG_TAG <:+: (pre ++ BODY_CLOSINNG_TAG).dropLast) :
    countOccs BODY_CLOSINNG_TAG (convertPageContents defaultMermaidVersion html).data
      = countOccs BODY_CLOSINNG_TAG html.data := by
  rw [convertPageContents_insert_default html pre post h1 h2, h1]
  rw [List.append_assoc, List.append_assoc]
  rw [countOccs_append _ pre _
    (noSpan_newline_head pre _ (head_some_append frag_default_head post))]
  rw [countOccs_append _ _ post (noSpan_frag_default post)]
  rw [countOccs_append _ pre _ (noSpan_pre_marker pre post h2)]
  rw [countOccs_append _ _ post (noSpan_marker_self post)]
  rw [countOccs_marker_self, countOccs_marker_frag]

/-! ## Claim C2 -/

/-- Claim C2: with the version option at its default, `convertPageContents`
replaces only the first closing-body marker by the fragment, leaving the
text before the first occurrence and the text after it unchanged; the
fragment contains exactly one closing-body marker, so the number of marker
occurrences is preserved; and on the concrete page of the specification the
output has exactly one loader occurrence and exactly one marker, with the
loader strictly preceding the marker. -/
theorem convertPageContents_replaces_first_marker :
    (∀ (html : String) (pre post : List Char),
      html.data = pre ++ BODY_CLOSINNG_TAG ++ post →
      ¬ BODY_CLOSINNG_TAG <:+: (pre ++ BODY_CLOSINNG_TAG).dropLast →
      (convertPageContents defaultMermaidVersion html).data
          = pre ++ (customScriptsAndBodyClosinngTag defaultMermaidVersion).data ++ post
        ∧ countOccs BODY_CLOSINNG_TAG
            (convertPageContents defaultMermaidVersion html).data
          = countOccs BODY_CLOSINNG_TAG html.data)
    ∧ countOccs BODY_CLOSINNG_TAG
        (customScriptsAndBodyClosinngTag defaultMermaidVersion).data = 1
    ∧ countOccs (mermaidScriptUrl defaultMermaidVersion).data
        (convertPageContents defaultMermaidVersion "<html><body>x</body></html>").data = 1
    ∧ countOccs BODY_CLOSINNG_TAG
        (convertPageContents defaultMermaidVersion "<html><body>x</body></html>").data = 1
    ∧ (∃ i j, firstIndexOfSubstr (mermaidScriptUrl defaultMermaidVersion).data
          (convertPageContents defaultMermaidVersion "<html><body>x</body></html>").data
          = some i
        ∧ firstIndexOfSubstr BODY_CLOSINNG_TAG
            (convertPageContents defaultMermaidVersion "<html><body>x</body></html>").data
          = some j
        ∧ i < j) := by
  refine ⟨?_, countOccs_marker_frag, by decide, by decide,
    41, 212, by decide, by decide, by decide⟩
  intro html pre post h1 h2
  exact ⟨convertPageContents_insert_default html pre post h1 h2,
    countOccs_insert_default html pre post h1 h2⟩

/-- Witness for C2 on the concrete page of the specification. -/
theorem convertPageContents_replaces_first_marker_witness :
    (convertPageContents defaultMermaidVersion "<html><body>x</body></html>").data
        = "<html><body>x".data
            ++ (customScriptsAndBodyClosinngTag defaultMermaidVersion).data
            ++ "</html>".data
      ∧ countOccs BODY_CLOSINNG_TAG
          (convertPageContents defaultMermaidVersion "<html><body>x</body></html>").data
        = countOccs BODY_CLOSINNG_TAG ("<html><body>x</body></html>" : String).data :=
  (convertPageContents_replaces_first_marker).1 "<html><body>x</body></html>"
    "<html><body>x".data "</html>".data (by decide) (by decide)

/-! ## Decomposition of occurrences across an append boundary -/

theorem infix_append_cases {pat : List Char} :
    ∀ (x y : List Char), pat <:+: x ++ y →
      pat <:+: x ∨ pat <:+: y ∨
        ∃ k, 0 < k ∧ k < pat.length ∧ pat.take k <:+ x ∧ pat.drop k <+: y := by
  intro x
  induction x with
  | nil =>
    intro y h
    right; left
    simpa using h
  | cons c x' ih =>
    intro y h
    rw [List.cons_append, List.infix_cons_iff] at h
    rcases h with h | h
    · have h' : pat <+: (c :: x') ++ y := by
        rw [List.cons_append]; exact h
      rcases prefix_append_split h' with h1 | ⟨h2, h3⟩
      · left
        exact h1.isInfix
      · by_cases hlen : pat.length ≤ (c :: x').length
        · left
          have heq : c :: x' = pat := h2.eq_of_length (Nat.le_antisymm h2.length_le hlen)
          rw [← heq]
        · right; right
          have hk2 : (c :: x').length < pat.length := Nat.lt_of_not_le hlen
          have htake : pat.take (c :: x').length = c :: x' := by
            obtain ⟨t, ht⟩ := h2
            rw [← ht, List.take_append_eq_append_take, List.take_length, Nat.sub_self,
              List.take_zero, List.append_nil]
          refine ⟨(c :: x').length, by simp, hk2, ?_, h3⟩
          rw [htake]
    · rcases ih y h with h1 | h2 | ⟨k, hk1, hk2, hsuf, hpre⟩
      · left
        exact List.infix_cons h1
      · right; left
        exact h2
      · right; right
        exact ⟨k, hk1, hk2, hsuf.trans (List.suffix_cons c x'), hpre⟩

/-! ## The default fragment around its own marker, and claim C5 -/

theorem frag_decomp :
    (customScriptsAndBodyClosinngTag defaultMermaidVersion).data
      = fragBeforeMarker.data ++ BODY_CLOSINNG_TAG ++ fragAfterMarker.data := by decide

theorem not_infix_marker_extended (pre : List Char)
    (h2 : ¬ BODY_CLOSINNG_TAG <:+: (pre ++ BODY_CLOSINNG_TAG).dropLast) :
    ¬ BODY_CLOSINNG_TAG
        <:+: ((pre ++ fragBeforeMarker.data) ++ BODY_CLOSINNG_TAG).dropLast := by
  intro hinf
  rw [List.dropLast_append_of_ne_nil _ bodyTag_ne_nil, List.append_assoc] at hinf
  rcases infix_append_cases pre _ hinf with h1 | h1 | ⟨k, hk1, hk2, hsuf, hpre⟩
  · apply h2
    rw [List.dropLast_append_of_ne_nil _ bodyTag_ne_nil]
    exact h1.trans (List.prefix_append pre _).isInfix
  · exact absurd h1 (by decide)
  · exact not_marker_tail_prefix_newline k hk1 hk2 _
      (head_some_append (by decide) _) hpre

/-- Claim C5: with the default version, applying `convertPageContents` twice
to a page containing the closing-body marker injects the bootstrap fragment
a second time into its own output: the second application splices a whole
new fragment in front of the marker that the first fragment rebuilt, and
the result holds at least two loader occurrences (exactly two appear inside
the doubly injected region). -/
theorem convertPageContents_not_idempotent :
    (∀ (html : String) (pre post : List Char),
      html.data = pre ++ BODY_CLOSINNG_TAG ++ post →
      ¬ BODY_CLOSINNG_TAG <:+: (pre ++ BODY_CLOSINNG_TAG).dropLast →
      (convertPageContents defaultMermaidVersion
          (convertPageContents defaultMermaidVersion html)).data
        = pre ++ fragBeforeMarker.data
            ++ (customScriptsAndBodyClosinngTag defaultMermaidVersion).data
            ++ fragAfterMarker.data ++ post
      ∧ 2 ≤ countOccs (mermaidScriptUrl defaultMermaidVersion).data
          (convertPageContents defaultMermaidVersion
            (convertPageContents defaultMermaidVersion html)).data)
    ∧ countOccs (mermaidScriptUrl defaultMermaidVersion).data
        (fragBeforeMarker.data
          ++ (customScriptsAndBodyClosinngTag defaultMermaidVersion).data
          ++ fragAfterMarker.data) = 2 := by
  constructor
  · intro html pre post h1 h2
    have hout1 : (convertPageContents defaultMermaidVersion html).data
        = (pre ++ fragBeforeMarker.data) ++ BODY_CLOSINNG_TAG
            ++ (fragAfterMarker.data ++ post) := by
      rw [convertPageContents_insert_default html pre post h1 h2, frag_decomp]
      simp [List.append_assoc]
    have h2' := not_infix_marker_extended pre h2
    have hmain := convertPageContents_insert_default
      (convertPageContents defaultMermaidVersion html)
      (pre ++ fragBeforeMarker.data) (fragAfterMarker.data ++ post) hout1 h2'
    constructor
    · rw [hmain]
      simp [List.append_assoc]
    · rw [hmain]
      have hassoc : (pre ++ fragBeforeMarker.data)
            ++ (customScriptsAndBodyClosinngTag defaultMermaidVersion).data
            ++ (fragAfterMarker.data ++ post)
          = pre ++ ((fragBeforeMarker.data
              ++ (customScriptsAndBodyClosinngTag defaultMermaidVersion).data
              ++ fragAfterMarker.data) ++ post) := by
        simp [List.append_assoc]
      rw [hassoc]
      have hc2 : countOccs (mermaidScriptUrl defaultMermaidVersion).data
          (fragBeforeMarker.data
            ++ (customScriptsAndBodyClosinngTag defaultMermaidVersion).data
            ++ fragAfterMarker.data) = 2 := by decide
      calc (2 : Nat)
          = countOccs (mermaidScriptUrl defaultMermaidVersion).data
              (fragBeforeMarker.data
                ++ (customScriptsAndBodyClosinngTag defaultMermaidVersion).data
                ++ fragAfterMarker.data) := hc2.symm
        _ ≤ countOccs (mermaidScriptUrl defaultMermaidVersion).data
              ((fragBeforeMarker.data
                ++ (customScriptsAndBodyClosinngTag defaultMermaidVersion).data
                ++ fragAfterMarker.data) ++ post) := countOccs_le_append_right _ _ _
        _ ≤ countOccs (mermaidScriptUrl defaultMermaidVersion).data
              (pre ++ ((fragBeforeMarker.data
                ++ (customScriptsAndBodyClosinngTag defaultMermaidVersion).data
                ++ fragAfterMarker.data) ++ post)) := countOccs_le_append_left _ _ _
  · decide

/-- Witness for C5 on the concrete page of the specification. -/
theorem convertPageContents_not_idempotent_witness :
    (convertPageContents defaultMermaidVersion
        (convertPageContents defaultMermaidVersion "<html><body>x</body></html>")).data
      = "<html><body>x".data ++ fragBeforeMarker.data
          ++ (customScriptsAndBodyClosinngTag defaultMermaidVersion).data
          ++ fragAfterMarker.data ++ "</html>".data
    ∧ 2 ≤ countOccs (mermaidScriptUrl defaultMermaidVersion).data
        (convertPageContents defaultMermaidVersion
          (convertPageContents defaultMermaidVersion "<html><body>x</body></html>")).data :=
  convertPageContents_not_idempotent.1 "<html><body>x</body></html>"
    "<html><body>x".data "</html>".data (by decide) (by decide)

/-! ## Claim C7 -/

theorem frag_structure (v : String) :
    customScriptsAndBodyClosinngTag v
      = fragUrlPre ++ mermaidScriptUrl v ++ fragUrlPost ++ "</body>" ++ fragAfterMarker := by
  have hA : ("\n      <script\n        src=\"https://unpkg.com/mermaid@" : String)
      = fragUrlPre ++ "https://unpkg.com/mermaid@" := by decide
  have hB : ("/dist/mermaid.min.js\"\n      ></script>\n      <script>\n      mermaid.initialize(\x7b\n        startOnLoad: true,\n      \x7d);\n      </script>\n      </body>\n    " : String)
      = "/dist/mermaid.min.js" ++ (fragUrlPost ++ ("</body>" ++ fragAfterMarker)) := by decide
  unfold customScriptsAndBodyClosinngTag mermaidScriptUrl
  rw [hA, hB]
  simp [String.append_assoc]

theorem frag_no_dollar (v : String) (hv : '$' ∉ v.data) :
    '$' ∉ (customScriptsAndBodyClosinngTag v).data := by
  unfold customScriptsAndBodyClosinngTag
  intro hmem
  rw [String.data_append, String.data_append] at hmem
  rcases List.mem_append.mp hmem with hmem1 | hmem2
  · rcases List.mem_append.mp hmem1 with hmem3 | hmem4
    · exact absurd hmem3 (by decide)
    · exact hv hmem4
  · exact absurd hmem2 (by decide)

/-- Claim C7 (amended): for every version string holding no dollar character
(the default included) and every page containing the closing-body marker,
the fragment spliced in place of the first marker is exactly the script
element whose src is the unpkg loader URL at that version, followed by the
initialization script enabling auto-start rendering (the `startOnLoad`
snippet occurs exactly once in that part), followed by the rebuilt
closing-body marker.  The dollar restriction is forced by the ECMAScript
replacement semantics, see the counterexample. -/
theorem convertPageContents_fragment_structure (v html : String)
    (pre post : List Char) (hv : '$' ∉ v.data)
    (h1 : html.data = pre ++ BODY_CLOSINNG_TAG ++ post)
    (h2 : ¬ BODY_CLOSINNG_TAG <:+: (pre ++ BODY_CLOSINNG_TAG).dropLast) :
    (convertPageContents v html).data
      = pre ++ (fragUrlPre ++ mermaidScriptUrl v ++ fragUrlPost
          ++ "</body>" ++ fragAfterMarker).data ++ post
    ∧ countOccs "startOnLoad: true".data fragUrlPost.data = 1 := by
  refine ⟨?_, by decide⟩
  rw [← frag_structure v]
  rw [convertPageContents_insert v html pre post h1 h2]
  rw [getSubstitution_of_no_dollar _ _ _ _ (frag_no_dollar v hv)]

/-- Witness for the amended C7 at a non-default version. -/
theorem convertPageContents_fragment_structure_witness :
    (convertPageContents "9.9.9" "a</body>b").data
      = "a".data ++ (fragUrlPre ++ mermaidScriptUrl "9.9.9" ++ fragUrlPost
          ++ "</body>" ++ fragAfterMarker).data ++ "b".data
    ∧ countOccs "startOnLoad: true".data fragUrlPost.data = 1 :=
  convertPageContents_fragment_structure "9.9.9" "a</body>b" "a".data "b".data
    (by decide) (by decide) (by decide)

/-- Counterexample to C7 as stated: with the version string set to the
dollar-ampersand sequence, the page consisting of exactly one closing-body
marker (so the text before and after the first occurrence is empty) is not
rewritten to the fragment with the version interpolated verbatim —
ECMAScript String.replace expands the dollar-pattern inside the replacement
string, so the interpolated loader URL does not contain the configured
version literally. -/
theorem convertPageContents_dollar_version_counterexample :
    ("</body>" : String).data = [] ++ BODY_CLOSINNG_TAG ++ []
    ∧ convertPageContents "$&" "</body>" ≠ customScriptsAndBodyClosinngTag "$&" := by
  exact ⟨by decide, by decide⟩

/-! ## TagCollector lemmas and claim C6 -/

theorem foldl_append_eq_flatten (L : List (List CommentTag)) :
    ∀ (acc : List CommentTag), L.foldl (fun a b => a ++ b) acc = acc ++ L.flatten := by
  induction L with
  | nil => intro acc; simp
  | cons x L ihL => intro acc; simp [ihL, List.append_assoc]

theorem mermaidTagsOfStore_cons (e : Nat × DeclarationReflection)
    (s : List (Nat × DeclarationReflection)) :
    mermaidTagsOfStore (e :: s)
      = (match e.2.comment with
         | some c =>
           match c.tags with
           | some ts => ts.filter isMermaidCommentTag
           | none => []
         | none => []) ++ mermaidTagsOfStore s := by
  cases hc : e.2.comment with
  | none =>
    simp [mermaidTagsOfStore, hc, filterComment]
  | some c =>
    cases ht : c.tags with
    | none =>
      simp [mermaidTagsOfStore, hc, ht, filterComment, filterCommentTags]
    | some ts =>
      simp [mermaidTagsOfStore, hc, ht, filterComment, filterCommentTags,
        foldl_append_eq_flatten, List.filter_append]

/-- Claim C6: `mermaidTags` returns exactly the tags whose owning reflection
has a comment with a present tag sequence and whose name is mermaid, in
store order and tag order (`mermaidTagsSpec`); reflections without comment
or tags contribute nothing; and on the concrete two-symbol graph of the
specification the result is exactly the first tag of the first symbol. -/
theorem mermaidTags_exactly_mermaid_named :
    (∀ (context : Context),
      mermaidTags context = mermaidTagsSpec context.project.reflections)
    ∧ mermaidTags
        ⟨⟨[(1, ⟨ReflectionKind.Other, "S1",
              some ⟨some [⟨"mermaid", "A\nB"⟩, ⟨"other", "x"⟩]⟩, none⟩),
           (2, ⟨ReflectionKind.Other, "S2", none, none⟩)], none⟩⟩
        = [⟨"mermaid", "A\nB"⟩] := by
  constructor
  · intro context
    show mermaidTagsOfStore context.project.reflections
      = mermaidTagsSpec context.project.reflections
    induction context.project.reflections with
    | nil => rfl
    | cons e s ih =>
      rw [mermaidTagsOfStore_cons, ih]
      simp only [mermaidTagsSpec, List.map_cons, List.flatten_cons]
      rcases e with ⟨id0, ⟨kind0, name0, comment0, children0⟩⟩
      cases comment0 with
      | none => rfl
      | some c0 =>
        obtain ⟨tg0⟩ := c0
        cases tg0 with
        | none => rfl
        | some ts0 => rfl
  · decide

/-! ## Claim C9 -/

/-- Claim C9: the tag-text rewriting pass of `onResolveBegin` rewrites only
tags named mermaid; every tag at any position of any reflection of the
store whose name is another string is left entirely unchanged (same
position, same contents), and the tag sequence keeps its length. -/
theorem convertMermaidTagTexts_preserves_other_tags
    (store : List (Nat × DeclarationReflection)) (i : Nat)
    (hi : i < store.length) (c : Comment) (ts : List CommentTag) (j : Nat)
    (hj : j < ts.length)
    (hcomment : store[i].2.comment = some c)
    (htags : c.tags = some ts)
    (hname : ¬ ts[j].tagName = "mermaid") :
    ∃ (hi2 : i < (convertMermaidTagTexts store).length) (c2 : Comment)
      (ts2 : List CommentTag) (hj2 : j < ts2.length),
      (convertMermaidTagTexts store)[i].1 = store[i].1
      ∧ (convertMermaidTagTexts store)[i].2.comment = some c2
      ∧ c2.tags = some ts2
      ∧ ts2.length = ts.length
      ∧ ts2[j] = ts[j] := by
  have hlen : (convertMermaidTagTexts store).length = store.length := by
    simp [convertMermaidTagTexts]
  have hi2 : i < (convertMermaidTagTexts store).length := by rw [hlen]; exact hi
  have hget : (convertMermaidTagTexts store)[i]
      = (store[i].1,
        { store[i].2 with
          comment := store[i].2.comment.map (fun c0 =>
            { c0 with tags := c0.tags.map (fun ts0 => ts0.map (fun t =>
                if isMermaidCommentTag t
                then { t with text := convertCommentTagText t.text }
                else t)) }) }) := by
    simp [convertMermaidTagTexts]
  refine ⟨hi2,
    ⟨some (ts.map (fun t => if isMermaidCommentTag t
      then { t with text := convertCommentTagText t.text } else t))⟩,
    ts.map (fun t => if isMermaidCommentTag t
      then { t with text := convertCommentTagText t.text } else t),
    by simpa using hj, ?_, ?_, rfl, by simp, ?_⟩
  · rw [hget]
  · rw [hget]
    simp [hcomment, htags]
  · have hfalse : isMermaidCommentTag ts[j] = false := by
      unfold isMermaidCommentTag
      exact beq_eq_false_iff_ne.mpr hname
    simp [hfalse]

/-- Witness for C9 at a concrete one-reflection store with one non-mermaid
tag. -/
theorem convertMermaidTagTexts_preserves_other_tags_witness :
    ∃ (hi2 : 0 < (convertMermaidTagTexts
        [(0, ⟨ReflectionKind.Other, "S",
            some ⟨some [⟨"other", "x"⟩]⟩, none⟩)]).length) (c2 : Comment)
      (ts2 : List CommentTag) (hj2 : 0 < ts2.length),
      (convertMermaidTagTexts
        [(0, ⟨ReflectionKind.Other, "S",
            some ⟨some [⟨"other", "x"⟩]⟩, none⟩)])[0].1
        = (([(0, ⟨ReflectionKind.Other, "S",
            some ⟨some [⟨"other", "x"⟩]⟩, none⟩)] :
              List (Nat × DeclarationReflection))[0]).1
      ∧ (convertMermaidTagTexts
        [(0, ⟨ReflectionKind.Other, "S",
            some ⟨some [⟨"other", "x"⟩]⟩, none⟩)])[0].2.comment = some c2
      ∧ c2.tags = some ts2
      ∧ ts2.length = ([⟨"other", "x"⟩] : List CommentTag).length
      ∧ ts2[0] = ([⟨"other", "x"⟩] : List CommentTag)[0] :=
  convertMermaidTagTexts_preserves_other_tags
    [(0, ⟨ReflectionKind.Other, "S", some ⟨some [⟨"other", "x"⟩]⟩, none⟩)]
    0 (by decide) ⟨some [⟨"other", "x"⟩]⟩ [⟨"other", "x"⟩] 0 (by decide)
    rfl rfl (by decide)

/-! ## Claim C4 -/

/-- Claim C4 is refuted by the code: on a project whose children hold one
class reflection without a comment, `onResolveBegin` dereferences
`reflection.comment!.tags` while the comment is still undefined (the guard
`if (reflection.comment)` is inverted relative to its own `add comment if
not exists` intent), so the callback throws a TypeError instead of
silently skipping the symbol; the aborted run is the `none` result. -/
theorem onResolveBegin_throws_on_commentless_class :
    onResolveBegin ⟨⟨[(0, ⟨ReflectionKind.Class, "C", none, none⟩)], some [0]⟩⟩
      = none := by decide

/-! ## Store lemmas for the attach loop of `onResolveBegin` -/

theorem lookup_update_self (store : List (Nat × DeclarationReflection)) (id : Nat)
    (r r0 : DeclarationReflection) (h : lookupReflection store id = some r0) :
    lookupReflection (updateReflection store id r) id = some r := by
  induction store with
  | nil => simp [lookupReflection] at h
  | cons e s ih =>
    simp only [updateReflection, List.map_cons]
    cases he : (e.1 == id) with
    | true =>
      simp [lookupReflection, List.find?_cons, he]
    | false =>
      have h' : lookupReflection s id = some r0 := by
        simpa [lookupReflection, List.find?_cons, he] using h
      simpa [lookupReflection, updateReflection, List.find?_cons, he] using ih h'

theorem lookup_update_none (store : List (Nat × DeclarationReflection)) (id : Nat)
    (r : DeclarationReflection) (h : lookupReflection store id = none) :
    lookupReflection (updateReflection store id r) id = none := by
  induction store with
  | nil => rfl
  | cons e s ih =>
    simp only [updateReflection, List.map_cons]
    cases he : (e.1 == id) with
    | true =>
      exfalso
      simp [lookupReflection, List.find?_cons, he] at h
    | false =>
      have h' : lookupReflection s id = none := by
        simpa [lookupReflection, List.find?_cons, he] using h
      simpa [lookupReflection, updateReflection, List.find?_cons, he] using ih h'

theorem lookup_update_ne (store : List (Nat × DeclarationReflection)) (id id2 : Nat)
    (r : DeclarationReflection) (hne : ¬ id2 = id) :
    lookupReflection (updateReflection store id r) id2 = lookupReflection store id2 := by
  induction store with
  | nil => rfl
  | cons e s ih =>
    simp only [updateReflection, List.map_cons]
    cases he : (e.1 == id) with
    | true =>
      have hid : e.1 = id := eq_of_beq he
      have hfalse : (e.1 == id2) = false := by
        rw [hid]
        exact beq_eq_false_iff_ne.mpr (fun hcon => hne hcon.symm)
      simpa [lookupReflection, List.find?_cons, hfalse, updateReflection] using ih
    | false =>
      cases hp : (e.1 == id2) with
      | true => simp [lookupReflection, List.find?_cons, hp, he]
      | false =>
        simpa [lookupReflection, List.find?_cons, hp, he, updateReflection] using ih

theorem attachStep_eq_of_lookup (store : List (Nat × DeclarationReflection))
    (id : Nat) (r : DeclarationReflection)
    (hl : lookupReflection store id = some r) :
    attachStep store id
      = (attachMermaidTag r ⟨"mermaid", createMermaidTagText "Class Diagram"
          (drowMermaidClassDiagram r)⟩).map (updateReflection store id) := by
  unfold attachStep
  rw [hl]

theorem attachStep_eq_of_lookup_none (store : List (Nat × DeclarationReflection))
    (id : Nat) (hl : lookupReflection store id = none) :
    attachStep store id = some store := by
  unfold attachStep
  rw [hl]

theorem attachStep_lookup_ne (store store2 : List (Nat × DeclarationReflection))
    (id id2 : Nat) (hne : ¬ id2 = id) (h : attachStep store id = some store2) :
    lookupReflection store2 id2 = lookupReflection store id2 := by
  cases hl : lookupReflection store id with
  | none =>
    rw [attachStep_eq_of_lookup_none store id hl] at h
    injection h with h
    rw [← h]
  | some r =>
    rw [attachStep_eq_of_lookup store id r hl] at h
    cases ha : attachMermaidTag r
        ⟨"mermaid", createMermaidTagText "Class Diagram" (drowMermaidClassDiagram r)⟩ with
    | none =>
      rw [ha] at h
      simp at h
    | some r2 =>
      rw [ha] at h
      simp only [Option.map_some', Option.some.injEq] at h
      rw [← h]
      exact lookup_update_ne store id id2 r2 hne

theorem attachStep_isSome (store store2 : List (Nat × DeclarationReflection))
    (id id2 : Nat) (h : attachStep store id = some store2) :
    (lookupReflection store2 id2).isSome = (lookupReflection store id2).isSome := by
  by_cases hne : id2 = id
  · subst hne
    cases hl : lookupReflection store id2 with
    | none =>
      rw [attachStep_eq_of_lookup_none store id2 hl] at h
      injection h with h
      rw [← h, hl]
    | some r =>
      rw [attachStep_eq_of_lookup store id2 r hl] at h
      cases ha : attachMermaidTag r
          ⟨"mermaid", createMermaidTagText "Class Diagram" (drowMermaidClassDiagram r)⟩ with
      | none =>
        rw [ha] at h
        simp at h
      | some r2 =>
        rw [ha] at h
        simp only [Option.map_some', Option.some.injEq] at h
        rw [← h, lookup_update_self store id2 r2 r hl]
        rfl
  · rw [attachStep_lookup_ne store store2 id id2 hne h]

theorem attachMermaidTag_of_comment (r : DeclarationReflection) (c : Comment)
    (tag : CommentTag) (hc : r.comment = some c) :
    attachMermaidTag r tag = some { r with comment := some ⟨some [tag]⟩ } := by
  unfold attachMermaidTag
  rw [hc]
  rfl

theorem attachMermaidTag_of_no_comment (r : DeclarationReflection)
    (tag : CommentTag) (hc : r.comment = none) :
    attachMermaidTag r tag = none := by
  unfold attachMermaidTag
  rw [hc]
  rfl

theorem attachStep_id_success (store store2 : List (Nat × DeclarationReflection))
    (id : Nat) (r : DeclarationReflection)
    (hl : lookupReflection store id = some r)
    (h : attachStep store id = some store2) :
    lookupReflection store2 id
      = some { r with comment := some ⟨some [generatedMermaidTag r]⟩ } := by
  rw [attachStep_eq_of_lookup store id r hl] at h
  cases hcom : r.comment with
  | none =>
    rw [attachMermaidTag_of_no_comment r _ hcom] at h
    simp at h
  | some c =>
    rw [attachMermaidTag_of_comment r c _ hcom] at h
    simp only [Option.map_some', Option.some.injEq] at h
    rw [← h]
    exact lookup_update_self store id _ r hl

theorem drowMermaidClassDiagram_congr (r0 r : DeclarationReflection)
    (hk : r.kind = r0.kind) (hn : r.name = r0.name) (hc : r.children = r0.children) :
    drowMermaidClassDiagram r = drowMermaidClassDiagram r0 := by
  unfold drowMermaidClassDiagram convertDeclarationReflectionToMermaidClassTiagram
  rw [hk, hn, hc]

theorem generatedMermaidTag_congr (r0 r : DeclarationReflection)
    (hk : r.kind = r0.kind) (hn : r.name = r0.name) (hc : r.children = r0.children) :
    generatedMermaidTag r = generatedMermaidTag r0 := by
  unfold generatedMermaidTag
  rw [drowMermaidClassDiagram_congr r0 r hk hn hc]

theorem attachStep_preserves_attachedAt (store store2 : List (Nat × DeclarationReflection))
    (id idq : Nat) (r0 : DeclarationReflection)
    (h : attachStep store idq = some store2) (hP : AttachedAt store id r0) :
    AttachedAt store2 id r0 := by
  obtain ⟨r, hl, hk, hn, hc, hcm⟩ := hP
  by_cases hid : id = idq
  · subst hid
    have hsucc := attachStep_id_success store store2 id r hl h
    refine ⟨_, hsucc, hk, hn, hc, ?_⟩
    show some (⟨some [generatedMermaidTag r]⟩ : Comment) = some ⟨some [generatedMermaidTag r0]⟩
    rw [generatedMermaidTag_congr r0 r hk hn hc]
  · exact ⟨r, by rw [attachStep_lookup_ne store store2 idq id hid h]; exact hl,
      hk, hn, hc, hcm⟩

theorem foldlM_attach_preserves_attachedAt (id : Nat) (r0 : DeclarationReflection) :
    ∀ (ids : List Nat) (store store2 : List (Nat × DeclarationReflection)),
      ids.foldlM attachStep store = some store2 →
      AttachedAt store id r0 → AttachedAt store2 id r0 := by
  intro ids
  induction ids with
  | nil =>
    intro store store2 h hP
    simp only [List.foldlM_nil] at h
    injection h with h
    rw [← h]
    exact hP
  | cons a ids' ih =>
    intro store store2 h hP
    simp only [List.foldlM_cons] at h
    cases h1 : attachStep store a with
    | none => rw [h1] at h; simp at h
    | some s1 =>
      rw [h1] at h
      exact ih s1 store2 h (attachStep_preserves_attachedAt store s1 id a r0 h1 hP)

theorem foldlM_attach_establishes (id : Nat) (r0 : DeclarationReflection) :
    ∀ (ids : List Nat) (store store2 : List (Nat × DeclarationReflection)),
      id ∈ ids →
      ids.foldlM attachStep store = some store2 →
      (lookupReflection store id = some r0 ∨ AttachedAt store id r0) →
      AttachedAt store2 id r0 := by
  intro ids
  induction ids with
  | nil =>
    intro store store2 hmem
    exact absurd hmem (List.not_mem_nil id)
  | cons a ids' ih =>
    intro store store2 hmem h hQ
    simp only [List.foldlM_cons] at h
    cases h1 : attachStep store a with
    | none => rw [h1] at h; simp at h
    | some s1 =>
      rw [h1] at h
      by_cases hida : id = a
      · subst hida
        have hP1 : AttachedAt s1 id r0 := by
          rcases hQ with hl | hP
          · exact ⟨_, attachStep_id_success store s1 id r0 hl h1, rfl, rfl, rfl, rfl⟩
          · exact attachStep_preserves_attachedAt store s1 id id r0 h1 hP
        exact foldlM_attach_preserves_attachedAt id r0 ids' s1 store2 h hP1
      · have hmem' : id ∈ ids' := by
          rcases List.mem_cons.mp hmem with hcon | hmem'
          · exact absurd hcon hida
          · exact hmem'
        have hQ1 : lookupReflection s1 id = some r0 ∨ AttachedAt s1 id r0 := by
          rcases hQ with hl | hP
          · left
            rw [attachStep_lookup_ne store s1 a id hida h1]
            exact hl
          · right
            exact attachStep_preserves_attachedAt store s1 id a r0 h1 hP
        exact ih s1 store2 hmem' h hQ1

theorem lookup_convertMermaidTagTexts (store : List (Nat × DeclarationReflection))
    (id : Nat) :
    lookupReflection (convertMermaidTagTexts store) id
      = (lookupReflection store id).map (fun r =>
          { r with comment := r.comment.map (fun c =>
              { c with tags := c.tags.map (fun ts => ts.map (fun t =>
                  if isMermaidCommentTag t
                  then { t with text := convertCommentTagText t.text } else t)) }) }) := by
  induction store with
  | nil => rfl
  | cons e s ih =>
    simp only [convertMermaidTagTexts, List.map_cons]
    cases hp : (e.1 == id) with
    | true =>
      simp [lookupReflection, List.find?_cons, hp]
    | false =>
      simpa [lookupReflection, List.find?_cons, hp, convertMermaidTagTexts] using ih

theorem string_chain_merge (K : String) :
    "#### " ++ ("Class Diagram"
        ++ (" \n\n <div class=\"mermaid\">" ++ ("classDiagram\n      " ++ K)))
      = "#### Class Diagram \n\n <div class=\"mermaid\">classDiagram"
        ++ ("\n      " ++ K) := by
  conv_lhs => rw [← String.append_assoc, ← String.append_assoc, ← String.append_assoc]
  conv_rhs => rw [← String.append_assoc]
  congr 1

theorem converted_generated_text (r0 : DeclarationReflection) :
    ∃ rest, convertCommentTagText (generatedMermaidTag r0).text
      = "#### Class Diagram \n\n <div class=\"mermaid\">classDiagram" ++ rest := by
  have htext : (generatedMermaidTag r0).text
      = "Class Diagram" ++ "\n" ++ drowMermaidClassDiagram r0 := rfl
  rw [htext, convertCommentTagText_eq_of_split "Class Diagram"
    (drowMermaidClassDiagram r0) (by decide)]
  refine ⟨"\n      " ++ (r0.name ++ (" .. "
    ++ ((if r0.kind == ReflectionKind.Class then "Clsss" else "Interface")
      ++ ("\n      "
        ++ (convertDeclarationReflectionToMermaidClassTiagram r0 ++ "</div>"))))), ?_⟩
  unfold drowMermaidClassDiagram
  simp only [String.append_assoc]
  rw [string_chain_merge]

/-! ## Claim C8 -/

/-- Claim C8: when a class or interface reflection among the children
already owns a comment and `onResolveBegin` completes, the attach loop has
replaced that comment by a freshly constructed one: afterwards the
reflection's comment holds exactly the one generated (and then rewritten)
class-diagram tag, so every tag the comment previously held — in
particular every tag not named mermaid — is gone. -/
theorem onResolveBegin_replaces_existing_comment (context : Context)
    (id : Nat) (cl : List Nat) (r0 : DeclarationReflection) (c0 : Comment)
    (ts0 : List CommentTag)
    (hch : context.project.children = some cl) (hmem : id ∈ cl)
    (hl : lookupReflection context.project.reflections id = some r0)
    (hk : kindOfClassOrInterface r0 = true)
    (_hcomment : r0.comment = some c0) (_htags : c0.tags = some ts0)
    (hs : (onResolveBegin context).isSome = true) :
    ∃ context2 r c,
      onResolveBegin context = some context2
      ∧ lookupReflection context2.project.reflections id = some r
      ∧ r.comment = some c
      ∧ c.tags = some [⟨"mermaid", convertCommentTagText
          (createMermaidTagText "Class Diagram" (drowMermaidClassDiagram r0))⟩]
      ∧ (∀ t0 ∈ ts0, ¬ t0.tagName = "mermaid" →
          ¬ t0 ∈ [(⟨"mermaid", convertCommentTagText
            (createMermaidTagText "Class Diagram" (drowMermaidClassDiagram r0))⟩ :
              CommentTag)]) := by
  cases honv : onResolveBegin context with
  | none => rw [honv] at hs; simp at hs
  | some context2 =>
    unfold onResolveBegin at honv
    cases hfold : (classOrInterfaceReflections context).foldlM attachStep
        context.project.reflections with
    | none => rw [hfold] at honv; simp at honv
    | some store1 =>
      rw [hfold] at honv
      simp only [Option.some.injEq] at honv
      have hmem2 : id ∈ classOrInterfaceReflections context := by
        unfold classOrInterfaceReflections
        rw [hch]
        refine List.mem_filter.mpr ⟨hmem, ?_⟩
        rw [hl]
        exact hk
      have hP := foldlM_attach_establishes id r0 _ _ _ hmem2 hfold (Or.inl hl)
      obtain ⟨r1, hl1, hk1, hn1, hc1, hcm1⟩ := hP
      have hmt : isMermaidCommentTag (generatedMermaidTag r0) = true := by
        unfold isMermaidCommentTag generatedMermaidTag
        rfl
      have hlook : lookupReflection context2.project.reflections id
          = some { r1 with comment := some ⟨some [⟨"mermaid", convertCommentTagText
              (createMermaidTagText "Class Diagram" (drowMermaidClassDiagram r0))⟩]⟩ } := by
        rw [← honv]
        show lookupReflection (convertMermaidTagTexts store1) id = _
        rw [lookup_convertMermaidTagTexts, hl1]
        simp only [Option.map_some', hcm1]
        have hmt2 : isMermaidCommentTag (⟨"mermaid", createMermaidTagText "Class Diagram"
            (drowMermaidClassDiagram r0)⟩ : CommentTag) = true := rfl
        simp [generatedMermaidTag, hmt2]
      refine ⟨context2, _, _, rfl, hlook, rfl, rfl, ?_⟩
      intro t0 _ hname hmemt
      rw [List.mem_singleton] at hmemt
      rw [hmemt] at hname
      exact hname rfl

/-- Witness for C8 on a one-class project whose class already owns a
comment with one custom tag. -/
theorem onResolveBegin_replaces_existing_comment_witness :
    ∃ context2 r c,
      onResolveBegin ⟨⟨[(0, ⟨ReflectionKind.Class, "C",
          some ⟨some [⟨"keep", "me"⟩]⟩, none⟩)], some [0]⟩⟩ = some context2
      ∧ lookupReflection context2.project.reflections 0 = some r
      ∧ r.comment = some c
      ∧ c.tags = some [⟨"mermaid", convertCommentTagText
          (createMermaidTagText "Class Diagram" (drowMermaidClassDiagram
            ⟨ReflectionKind.Class, "C", some ⟨some [⟨"keep", "me"⟩]⟩, none⟩))⟩]
      ∧ (∀ t0 ∈ [(⟨"keep", "me"⟩ : CommentTag)], ¬ t0.tagName = "mermaid" →
          ¬ t0 ∈ [(⟨"mermaid", convertCommentTagText
            (createMermaidTagText "Class Diagram" (drowMermaidClassDiagram
              ⟨ReflectionKind.Class, "C", some ⟨some [⟨"keep", "me"⟩]⟩, none⟩))⟩ :
                CommentTag)]) :=
  onResolveBegin_replaces_existing_comment
    ⟨⟨[(0, ⟨ReflectionKind.Class, "C", some ⟨some [⟨"keep", "me"⟩]⟩, none⟩)],
      some [0]⟩⟩
    0 [0] ⟨ReflectionKind.Class, "C", some ⟨some [⟨"keep", "me"⟩]⟩, none⟩
    ⟨some [⟨"keep", "me"⟩]⟩ [⟨"keep", "me"⟩]
    rfl (by decide) rfl (by decide) rfl rfl (by decide)

/-! ## Claim C10 -/

/-- Claim C10: whenever `onResolveBegin` completes without throwing on a
context whose children hold a class or interface reflection that also
appears in the reflections mapping, that reflection's comment afterwards
holds a tag named mermaid whose text begins with the rewritten class
diagram heading: the tag generated by the first loop is rewritten by the
transformation loop within the same invocation and never survives in its
raw form. -/
theorem onResolveBegin_rewrites_generated_tag (context : Context)
    (id : Nat) (cl : List Nat) (r0 : DeclarationReflection)
    (hch : context.project.children = some cl) (hmem : id ∈ cl)
    (hl : lookupReflection context.project.reflections id = some r0)
    (hk : kindOfClassOrInterface r0 = true)
    (hs : (onResolveBegin context).isSome = true) :
    ∃ context2 r c ts t rest,
      onResolveBegin context = some context2
      ∧ lookupReflection context2.project.reflections id = some r
      ∧ r.comment = some c
      ∧ c.tags = some ts
      ∧ t ∈ ts
      ∧ t.tagName = "mermaid"
      ∧ t.text = "#### Class Diagram \n\n <div class=\"mermaid\">classDiagram"
          ++ rest := by
  cases honv : onResolveBegin context with
  | none => rw [honv] at hs; simp at hs
  | some context2 =>
    unfold onResolveBegin at honv
    cases hfold : (classOrInterfaceReflections context).foldlM attachStep
        context.project.reflections with
    | none => rw [hfold] at honv; simp at honv
    | some store1 =>
      rw [hfold] at honv
      simp only [Option.some.injEq] at honv
      have hmem2 : id ∈ classOrInterfaceReflections context := by
        unfold classOrInterfaceReflections
        rw [hch]
        refine List.mem_filter.mpr ⟨hmem, ?_⟩
        rw [hl]
        exact hk
      have hP := foldlM_attach_establishes id r0 _ _ _ hmem2 hfold (Or.inl hl)
      obtain ⟨r1, hl1, hk1, hn1, hc1, hcm1⟩ := hP
      obtain ⟨rest, hrest⟩ := converted_generated_text r0
      have hmt : isMermaidCommentTag (generatedMermaidTag r0) = true := by
        unfold isMermaidCommentTag generatedMermaidTag
        rfl
      have hlook : lookupReflection context2.project.reflections id
          = some { r1 with comment := some ⟨some [⟨"mermaid",
              convertCommentTagText (generatedMermaidTag r0).text⟩]⟩ } := by
        rw [← honv]
        show lookupReflection (convertMermaidTagTexts store1) id = _
        rw [lookup_convertMermaidTagTexts, hl1]
        simp only [Option.map_some', hcm1]
        have hmt2 : isMermaidCommentTag (⟨"mermaid", createMermaidTagText "Class Diagram"
            (drowMermaidClassDiagram r0)⟩ : CommentTag) = true := rfl
        simp [generatedMermaidTag, hmt2]
      exact ⟨context2, _, _, _,
        ⟨"mermaid", convertCommentTagText (generatedMermaidTag r0).text⟩, rest,
        rfl, hlook, rfl, rfl, List.mem_singleton.mpr rfl, rfl, hrest⟩

/-- Witness for C10 on a one-class project whose class owns a comment. -/
theorem onResolveBegin_rewrites_generated_tag_witness :
    ∃ context2 r c ts t rest,
      onResolveBegin ⟨⟨[(7, ⟨ReflectionKind.Interface, "I",
          some ⟨none⟩, none⟩)], some [7]⟩⟩ = some context2
      ∧ lookupReflection context2.project.reflections 7 = some r
      ∧ r.comment = some c
      ∧ c.tags = some ts
      ∧ t ∈ ts
      ∧ t.tagName = "mermaid"
      ∧ t.text = "#### Class Diagram \n\n <div class=\"mermaid\">classDiagram"
          ++ rest :=
  onResolveBegin_rewrites_generated_tag
    ⟨⟨[(7, ⟨ReflectionKind.Interface, "I", some ⟨none⟩, none⟩)], some [7]⟩⟩
    7 [7] ⟨ReflectionKind.Interface, "I", some ⟨none⟩, none⟩
    rfl (by decide) rfl (by decide) (by decide)

end MermaidPluginProofs
